import Mathlib

/-!
Shallow embedding of the entity/component world, the per-frame systems, the
game-state machine, and the legacy map parser of the csci5607 game repository
(src/components.rs, src/state.rs, src/systems.rs, src/map.rs), together with
theorems settling the specification claims about them.

Modelling conventions: `f32` values become real numbers; Rust `u32`/`u64`
arithmetic becomes `Nat` arithmetic with explicit `% 2^w` where the source
wraps; fallible Rust code returns `Except`; code paths that panic are made
explicit by a dedicated result constructor.
-/

set_option linter.unusedVariables false

/-- A 3-component vector of reals, standing for cgmath `Point3<f32>` /
`Vector3<f32>`. -/
structure Point3 where
  x : ℝ
  y : ℝ
  z : ℝ

/-- `components.rs`: `LocationComponent { xyz, rotation, scale }`. -/
structure LocationComponent where
  xyz : Point3
  rotation : Point3
  scale : ℝ

/-- `components.rs` `LocationComponent::collides`: the distance between the
`xyz` centers (cgmath `magnitude` of the difference vector, i.e. the square
root of the sum of squared coordinate differences) is strictly less than
`(self.scale + other.scale) * sqrt(2) / 2`. -/
def LocationComponent.collides (a b : LocationComponent) : Prop :=
  Real.sqrt ((a.xyz.x - b.xyz.x) ^ 2 + (a.xyz.y - b.xyz.y) ^ 2 + (a.xyz.z - b.xyz.z) ^ 2)
    < (a.scale + b.scale) * Real.sqrt 2 / 2

noncomputable instance (a b : LocationComponent) : Decidable (a.collides b) :=
  Classical.propDecidable _

/-- `components.rs`: `KeyComponent { letter, held }`. -/
structure KeyComponent where
  letter : Char
  held : Bool
deriving DecidableEq

/-- Modelled from the spec: `DecalComponent` is defined in the repository's
`gui::render` module, which is not present under `src/`; the spec describes it
as a decal marker carrying an enabled flag and an image handle.  The image
handle is an opaque graphics asset and is omitted; only the `enabled` flag is
observable to the systems under `src/`. -/
structure DecalComponent where
  enabled : Bool
deriving DecidableEq

/-- The per-entity typed component map (`typemap::ShareMap`): at most one
value per component type.  One optional slot per component type used by the
game; `RenderComponent`'s model handle and `CameraComponent`/`GoalComponent`
marker structs carry no data observable to the systems, so their slots are
presence flags. -/
structure ComponentStore where
  location : Option LocationComponent
  camera : Option Unit
  door : Option Char
  goal : Option Unit
  key : Option KeyComponent
  collision : Option Bool
  render : Option Unit
  decal : Option DecalComponent

/-- The empty component store. -/
def ComponentStore.empty : ComponentStore :=
  ⟨none, none, none, none, none, none, none, none⟩

/-- The identity of a component type (`typemap` keys). -/
inductive CompTy where
  | location
  | camera
  | door
  | goal
  | key
  | collision
  | render
  | decal
deriving DecidableEq

/-- A dynamically-typed component value, as stored in a `ShareMap` slot. -/
inductive Component where
  | location (v : LocationComponent)
  | camera
  | door (v : Char)
  | goal
  | key (v : KeyComponent)
  | collision (v : Bool)
  | render
  | decal (v : DecalComponent)

/-- The component type a dynamic component value belongs to. -/
def Component.ty : Component → CompTy
  | .location _ => .location
  | .camera => .camera
  | .door _ => .door
  | .goal => .goal
  | .key _ => .key
  | .collision _ => .collision
  | .render => .render
  | .decal _ => .decal

/-- `ShareMap::get::<T>` for a dynamically chosen component type. -/
def ComponentStore.lookupTy (st : ComponentStore) : CompTy → Option Component
  | .location => st.location.map Component.location
  | .camera => st.camera.map fun _ => Component.camera
  | .door => st.door.map Component.door
  | .goal => st.goal.map fun _ => Component.goal
  | .key => st.key.map Component.key
  | .collision => st.collision.map Component.collision
  | .render => st.render.map fun _ => Component.render
  | .decal => st.decal.map Component.decal

/-- `ComponentRefHList::get_from_component_map` (state.rs): walk the requested
set of component types, `?`-chaining a `ShareMap::get` for each; `None` as
soon as any requested component is absent, and never a partial list. -/
def getFromStore : List CompTy → ComponentStore → Option (List Component)
  | [], _ => some []
  | c :: cs, st =>
    (st.lookupTy c).bind fun h => (getFromStore cs st).map fun t => h :: t

/-- An entity identifier (lib.rs `Entity(Symbol)`).  The source interns the
string `"{next_entity}:{name}"`; since the decimal digits of the counter
contain no colon, that formatting is injective in the `(counter, name)` pair,
so the pair itself is the identifier here. -/
structure Entity where
  idx : Nat
  name : String
deriving DecidableEq

/-- `state.rs`: `World { next_entity, components }`.  The `HashMap` of entity
to component store becomes an association list; its order is an artifact
(hash-map iteration order is unspecified and the spec forbids relying on it).
-/
structure World where
  next_entity : Nat
  components : List (Entity × ComponentStore)

/-- `World::default()`: no entities, counter at zero. -/
def World.default : World := ⟨0, []⟩

/-- `HashMap::get(&entity)` on the component map. -/
def lookupEntry : List (Entity × ComponentStore) → Entity → Option ComponentStore
  | [], _ => none
  | p :: ps, e => if p.1 = e then some p.2 else lookupEntry ps e

/-- The component store currently held for an entity. -/
def World.lookupStore (w : World) (e : Entity) : Option ComponentStore :=
  lookupEntry w.components e

/-- The keys of the component map (`self.components.keys()`). -/
def World.keys (w : World) : List Entity :=
  w.components.map Prod.fst

/-- `World::get` generalised over the component projection:
`self.components.get(&entity).and_then(...)`. -/
def World.getWith {α : Type} (w : World) (f : ComponentStore → Option α) (e : Entity) :
    Option α :=
  (w.lookupStore e).bind f

/-- `World::get::<Set>`: look up the entity's store and extract the requested
component set from it. -/
def World.get (w : World) (cs : List CompTy) (e : Entity) : Option (List Component) :=
  w.getWith (getFromStore cs) e

/-- `World::iter` generalised over the component projection:
`self.components.keys().cloned().filter_map(|e| self.get(e).map(|cs| (e, cs)))`.
-/
def World.iterWith {α : Type} (w : World) (f : ComponentStore → Option α) :
    List (Entity × α) :=
  w.keys.filterMap fun e => (w.getWith f e).map fun a => (e, a)

/-- `World::iter::<Set>` over a dynamically chosen component set. -/
def World.iter (w : World) (cs : List CompTy) : List (Entity × List Component) :=
  w.iterWith (getFromStore cs)

/-- `World::delete_entity`: `self.components.remove(&entity)` (a no-op when
the entity is absent; removing every association-list entry under the key is
`HashMap::remove` under the hash map's key-uniqueness invariant). -/
def World.delete (w : World) (e : Entity) : World :=
  ⟨w.next_entity, w.components.filter fun p => p.1 ≠ e⟩

/-- `World::new_entity`: build the entity id from the counter and the name,
bump the counter, insert the fresh component store.  Returns the updated
world together with the returned `Entity`. -/
def World.newEntity (w : World) (name : String) (st : ComponentStore) : World × Entity :=
  let e : Entity := ⟨w.next_entity, name⟩
  (⟨w.next_entity + 1, (e, st) :: w.components⟩, e)

/-- A single-component in-place mutation through `World::get_mut`: apply `f`
to the entity's store when the entity exists, leave the world unchanged
otherwise. -/
def World.updateStore (w : World) (e : Entity) (f : ComponentStore → ComponentStore) :
    World :=
  ⟨w.next_entity, w.components.map fun p => if p.1 = e then (p.1, f p.2) else p⟩

/-- `if let Some(CollisionComponent(ref mut active)) = world.get_mut(door)
{ *active = false }` (systems.rs, UnlockSystem): set the collision flag to
`false` when the slot is occupied. -/
def ComponentStore.withCollisionInactive (st : ComponentStore) : ComponentStore :=
  ⟨st.location, st.camera, st.door, st.goal, st.key,
    st.collision.map fun _ => false, st.render, st.decal⟩

/-- `world.get_mut::<DecalComponent>(decal).unwrap().enabled = true`
(systems.rs, WinSystem). -/
def ComponentStore.withDecalEnabled (st : ComponentStore) : ComponentStore :=
  ⟨st.location, st.camera, st.door, st.goal, st.key, st.collision, st.render,
    st.decal.map fun d => ⟨true⟩⟩

/-- `*held = true` through `world.get_mut::<KeyComponent>` (systems.rs,
SnagSystem). -/
def ComponentStore.withKeyHeld (st : ComponentStore) : ComponentStore :=
  ⟨st.location, st.camera, st.door, st.goal,
    st.key.map fun k => ⟨k.letter, true⟩, st.collision, st.render, st.decal⟩

/-- state.rs: the global game state `Playing(World) | Done(World, u64) |
Close`. -/
inductive State where
  | playing (w : World)
  | done (w : World) (t : Nat)
  | close

/-- state.rs `State::should_close`: `Done(_, t) => t > 3_500`, `Close => true`,
otherwise `false`. -/
def State.should_close : State → Bool
  | .done _ t => decide (t > 3500)
  | .close => true
  | .playing _ => false

/-- The `match state { Playing(w) | Done(w, _) => w, _ => return }` prologue
shared by the systems: run a world transformation in place, leaving `Close`
(and the `Done` timer) untouched. -/
def State.onWorld (s : State) (f : World → World) : State :=
  match s with
  | .playing w => .playing (f w)
  | .done w t => .done (f w) t
  | .close => .close

/-- `Hlist![&CameraComponent, &LocationComponent]` extraction from a store. -/
def ComponentStore.camLoc (st : ComponentStore) : Option LocationComponent :=
  st.camera.bind fun _ => st.location

/-- `Hlist![&GoalComponent, &LocationComponent]` extraction from a store. -/
def ComponentStore.goalLoc (st : ComponentStore) : Option LocationComponent :=
  st.goal.bind fun _ => st.location

/-- `Hlist![&DoorComponent, &LocationComponent]` extraction from a store. -/
def ComponentStore.doorLoc (st : ComponentStore) : Option (Char × LocationComponent) :=
  st.door.bind fun d => st.location.map fun l => (d, l)

/-- `Hlist![&KeyComponent, &LocationComponent]` extraction from a store. -/
def ComponentStore.keyLoc (st : ComponentStore) : Option (KeyComponent × LocationComponent) :=
  st.key.bind fun k => st.location.map fun l => (k, l)

/-- `Hlist![&LocationComponent, &KeyComponent]` extraction from a store. -/
def ComponentStore.locKey (st : ComponentStore) : Option (LocationComponent × KeyComponent) :=
  st.location.bind fun l => st.key.map fun k => (l, k)

/-- `Hlist![&KeyComponent]` extraction from a store. -/
def ComponentStore.keyOnly (st : ComponentStore) : Option KeyComponent := st.key

/-- `Hlist![&LocationComponent]` extraction from a store. -/
def ComponentStore.locOnly (st : ComponentStore) : Option LocationComponent := st.location

/-- `Hlist![&DecalComponent]` extraction from a store. -/
def ComponentStore.decalOnly (st : ComponentStore) : Option DecalComponent := st.decal

/-- systems.rs HoldSystem body: take the first camera's location; for every
held key, snap its position to `camera.xyz + 0.3 * forward` (with `forward`
the yaw rotation of the unit z vector, yaw in degrees) and then force its
height to `0.1`.  The source unwraps the key's location; held keys always
carry one, and an absent slot is left untouched here. -/
noncomputable def holdWorld (w : World) : World :=
  match (w.iterWith ComponentStore.camLoc).head? with
  | none => w
  | some (_, cam) =>
    let heldKeys := ((w.iterWith ComponentStore.keyOnly).filter fun p => p.2.held).map Prod.fst
    heldKeys.foldl
      (fun w e =>
        w.updateStore e fun st =>
          ⟨st.location.map fun loc =>
            ⟨⟨cam.xyz.x + 0.3 * Real.sin (cam.rotation.y * Real.pi / 180), 0.1,
              cam.xyz.z + 0.3 * Real.cos (cam.rotation.y * Real.pi / 180)⟩,
              loc.rotation, loc.scale⟩,
            st.camera, st.door, st.goal, st.key, st.collision, st.render, st.decal⟩)
      w

/-- systems.rs `HoldSystem::step`. -/
noncomputable def HoldSystem.step (s : State) (dt : Nat) : State :=
  s.onWorld holdWorld

/-- systems.rs SnagSystem body: take the first camera's location; every
non-held key whose location collides with the camera has its `held` flag set.
-/
noncomputable def snagWorld (w : World) : World :=
  match (w.iterWith ComponentStore.camLoc).head? with
  | none => w
  | some (_, cam) =>
    let snagged := (w.iterWith ComponentStore.locKey).filterMap fun p =>
      if ¬p.2.2.held ∧ cam.collides p.2.1 then some p.1 else none
    snagged.foldl (fun w e => w.updateStore e ComponentStore.withKeyHeld) w

/-- systems.rs `SnagSystem::step`. -/
noncomputable def SnagSystem.step (s : State) (dt : Nat) : State :=
  s.onWorld snagWorld

/-- `(key_letter as u32).wrapping_sub(door_letter as u32)` (systems.rs,
UnlockSystem): wrapping 32-bit subtraction of the door letter's code point
from the key letter's. -/
def wrapDiff (k d : Char) : Nat :=
  (k.toNat + (4294967296 - d.toNat)) % 4294967296

/-- systems.rs UnlockSystem nested loops: every (door entity, key entity) pair
whose locations collide and whose letters satisfy
`wrapping_sub(key, door) == 32`, in iteration order. -/
noncomputable def unlockPairs (w : World) : List (Entity × Entity) :=
  (w.iterWith ComponentStore.doorLoc).flatMap fun d =>
    (w.iterWith ComponentStore.keyLoc).filterMap fun k =>
      if d.2.2.collides k.2.2 ∧ wrapDiff k.2.1.letter d.2.1 = 32 then some (d.1, k.1)
      else none

/-- systems.rs UnlockSystem unlock loop: for each matched pair, delete the key
entity, then set the door's collision flag inactive. -/
def applyUnlocks (w : World) (pairs : List (Entity × Entity)) : World :=
  pairs.foldl (fun w p => (w.delete p.2).updateStore p.1 ComponentStore.withCollisionInactive) w

/-- systems.rs `UnlockSystem::step`. -/
noncomputable def UnlockSystem.step (s : State) (dt : Nat) : State :=
  s.onWorld fun w => applyUnlocks w (unlockPairs w)

/-- systems.rs TheFloorIsLavaSystem scan: the entities whose location has
`xyz[1] < -1.0`. -/
noncomputable def lavaVictims (w : World) : List Entity :=
  (w.iterWith ComponentStore.locOnly).filterMap fun p =>
    if p.2.xyz.y < -1 then some p.1 else none

/-- systems.rs TheFloorIsLavaSystem body: delete every scanned entity. -/
noncomputable def lavaWorld (w : World) : World :=
  (lavaVictims w).foldl World.delete w

/-- systems.rs `TheFloorIsLavaSystem::step`. -/
noncomputable def TheFloorIsLavaSystem.step (s : State) (dt : Nat) : State :=
  s.onWorld lavaWorld

/-- systems.rs WinSystem goal query: the first goal entity whose location
collides with the camera
(`world.iter().filter(...collides...).map(entity).next()`). -/
noncomputable def winGoal (w : World) (cam : LocationComponent) : Option Entity :=
  ((w.iterWith ComponentStore.goalLoc).filterMap fun p =>
    if cam.collides p.2 then some p.1 else none).head?

/-- systems.rs `WinSystem::step`: in `Playing`, find the camera (warn-return
when absent), find the first colliding goal; if found, delete the goal, find
the win decal in the now-mutated world (warn-return when absent — note the
goal stays deleted), enable it and move the world into `Done(world, 0)`.  In
`Done`, add the elapsed time.  `Close` is untouched. -/
noncomputable def WinSystem.step (s : State) (dt : Nat) : State :=
  match s with
  | .playing w =>
    match (w.iterWith ComponentStore.camLoc).head? with
    | none => .playing w
    | some (_, cam) =>
      match winGoal w cam with
      | none => .playing w
      | some g =>
        let w1 := w.delete g
        match (w1.iterWith ComponentStore.decalOnly).head? with
        | none => .playing w1
        | some (d, _) => .done (w1.updateStore d ComponentStore.withDecalEnabled) 0
  | .done w t => .done w (t + dt)
  | .close => .close

/-- A call against the world's entity-management interface, for reasoning
about whole call sequences of `new_entity` / `delete_entity`. -/
inductive Op where
  | new (name : String) (st : ComponentStore)
  | del (e : Entity)

/-- Run a sequence of entity-management calls against a world. -/
def runOps (w : World) : List Op → World
  | [] => w
  | .new n st :: ops => runOps (w.newEntity n st).1 ops
  | .del e :: ops => runOps (w.delete e) ops

/-- The entities returned by the `new_entity` calls of a call sequence, in
call order. -/
def issuedEntities (w : World) : List Op → List Entity
  | [] => []
  | .new n st :: ops => (w.newEntity n st).2 :: issuedEntities (w.newEntity n st).1 ops
  | .del e :: ops => issuedEntities (w.delete e) ops

/-- map.rs: the floor map tile. -/
inductive Tile where
  | empty
  | wall
  | door (c : Char)
deriving DecidableEq

/-- map.rs `Map`: the fields populated by parsing.  The remaining fields
(clear color, door colors, asset paths) are constants set by `from_str` and
carry no parse-dependent data. -/
structure MapData where
  dims : Nat × Nat
  tiles : List Tile
  start : Nat × Nat
  goal : Nat × Nat
  keys : List (Nat × Nat × Char)
deriving DecidableEq

/-- The `Map` value `from_str` builds before reading the body. -/
def MapData.init (w h : Nat) : MapData :=
  ⟨(w, h), [], (0, 0), (0, 0), []⟩

/-- An explicit error value returned by the legacy map parser.  Each
constructor carries exactly the data the source interpolates into the
corresponding `failure` message. -/
inductive MapError where
  | unexpectedEof
  | expectedEof (rest : List Char)
  | parseIntError (s : List Char)
  | invalidTile (ch : Char)
deriving DecidableEq

/-- map.rs `parse_tile`: match the tile character in source arm order; `G`,
`S` and key letters also record positions in the map; whitespace is skipped
without pushing a tile; anything else is
`bail!("Invalid tile {:?}", ch)` — an error carrying the character only. -/
def parseTile (m : MapData) (ch : Char) (x y : Nat) : Except MapError MapData :=
  if ch = '0' then
    .ok ⟨m.dims, m.tiles ++ [Tile.empty], m.start, m.goal, m.keys⟩
  else if ch = 'G' then
    .ok ⟨m.dims, m.tiles ++ [Tile.empty], m.start, (x, y), m.keys⟩
  else if ch = 'S' then
    .ok ⟨m.dims, m.tiles ++ [Tile.empty], (x, y), m.goal, m.keys⟩
  else if 'A' ≤ ch ∧ ch ≤ 'E' then
    .ok ⟨m.dims, m.tiles ++ [Tile.door ch], m.start, m.goal, m.keys⟩
  else if 'a' ≤ ch ∧ ch ≤ 'e' then
    .ok ⟨m.dims, m.tiles ++ [Tile.empty], m.start, m.goal, m.keys ++ [(x, y, ch)]⟩
  else if ch = 'W' then
    .ok ⟨m.dims, m.tiles ++ [Tile.wall], m.start, m.goal, m.keys⟩
  else if ch = '\n' ∨ ch = '\r' ∨ ch = '\t' ∨ ch = ' ' then
    .ok m
  else
    .error (.invalidTile ch)

/-- `str::parse::<usize>()` on a header field: an optional leading `+`
followed by at least one decimal digit.  (usize overflow checking is dropped;
the value maps to an unbounded `Nat`.) -/
def parseNat (cs : List Char) : Except MapError Nat :=
  let ds := match cs with
    | '+' :: rest => rest
    | _ => cs
  if ds ≠ [] ∧ ds.all Char.isDigit then
    .ok (ds.foldl (fun n c => n * 10 + (c.toNat - 48)) 0)
  else
    .error (.parseIntError cs)

/-- map.rs `from_str` body loop: while fewer than `dims.0 * dims.1` tiles have
been pushed, take the next character (EOF is an explicit error), feed it to
`parse_tile`, and step the `(x, y)` cursor exactly as the source does
(increment `x` after each character, wrapping when `x > dims.0`). -/
def parseBody (m : MapData) (target : Nat) (rest : List Char) (x y : Nat) :
    Except MapError (MapData × List Char) :=
  if m.tiles.length = target then .ok (m, rest)
  else
    match rest with
    | [] => .error .unexpectedEof
    | ch :: rest' =>
      match parseTile m ch x y with
      | .error e => .error e
      | .ok m' =>
        if x + 1 > m'.dims.1 then parseBody m' target rest' 0 (y + 1)
        else parseBody m' target rest' (x + 1) y

/-- The three ways the legacy parser can finish: a parsed map, an explicit
error value, or a panic (an `unwrap` of `None`). -/
inductive ParseOutcome where
  | ok (m : MapData)
  | err (e : MapError)
  | panic
deriving DecidableEq

/-- `char::is_whitespace` on the characters `trim_left` actually meets here.
-/
def isWs (c : Char) : Bool :=
  c = ' ' || c = '\t' || c = '\n' || c = '\r'

/-- map.rs `Map::from_str`, on the character list of the input.  The header
indices `s.find(' ')` and `s[w_end_idx..].find('\n')` are unwrapped in the
source: a missing space or a missing newline after it is a panic, not an
error value.  All characters the body loop slices past are one-byte, so
char-level indices coincide with the source's byte indices. -/
def fromStr (s : List Char) : ParseOutcome :=
  match s.findIdx? (· = ' ') with
  | none => .panic
  | some wEnd =>
    match (s.drop wEnd).findIdx? (· = '\n') with
    | none => .panic
    | some rel =>
      let hEnd := rel + wEnd
      let wStr := s.take wEnd
      let hStr := (s.drop (wEnd + 1)).take (hEnd - (wEnd + 1))
      match parseNat wStr with
      | .error e => .err e
      | .ok wv =>
        match parseNat hStr with
        | .error e => .err e
        | .ok hv =>
          match parseBody (MapData.init wv hv) (wv * hv) (s.drop (hEnd + 1)) 0 0 with
          | .error e => .err e
          | .ok (m, rest) =>
            let rest := rest.dropWhile isWs
            if rest = [] then .ok m else .err (.expectedEof rest)

theorem lookupEntry_eq_none : ∀ (l : List (Entity × ComponentStore)) (e : Entity),
    lookupEntry l e = none ↔ e ∉ l.map Prod.fst := by
  intro l e
  induction l with
  | nil => simp [lookupEntry]
  | cons p ps ih =>
    by_cases h : p.1 = e
    · simp [lookupEntry, h]
    · simp [lookupEntry, h, ih, Ne.symm h]

theorem mem_keys_iff_lookup (w : World) (e : Entity) :
    e ∈ w.keys ↔ (w.lookupStore e).isSome := by
  rw [World.keys, World.lookupStore]
  rcases h : lookupEntry w.components e with _ | st
  · rw [lookupEntry_eq_none] at h
    simp [h]
  · simp only [Option.isSome_some, iff_true]
    by_contra hmem
    rw [← lookupEntry_eq_none w.components e] at hmem
    rw [hmem] at h
    exact Option.noConfusion h

theorem mem_iterWith {α : Type} (w : World) (f : ComponentStore → Option α)
    (e : Entity) (a : α) :
    (e, a) ∈ w.iterWith f ↔ e ∈ w.keys ∧ w.getWith f e = some a := by
  rw [World.iterWith, List.mem_filterMap]
  constructor
  · rintro ⟨x, hx, hfx⟩
    rcases hg : w.getWith f x with _ | b
    · rw [hg] at hfx; exact Option.noConfusion hfx
    · rw [hg] at hfx
      simp only [Option.map_some', Option.some.injEq, Prod.mk.injEq] at hfx
      obtain ⟨hxe, hba⟩ := hfx
      subst hxe; subst hba
      exact ⟨hx, hg⟩
  · rintro ⟨hk, hg⟩
    exact ⟨e, hk, by rw [hg]; rfl⟩

theorem fst_mem_iterWith {α : Type} {w : World} {f : ComponentStore → Option α}
    {e : Entity} {a : α} (h : (e, a) ∈ w.iterWith f) : e ∈ w.keys :=
  ((mem_iterWith w f e a).1 h).1

theorem lookup_delete (w : World) (e x : Entity) :
    (w.delete e).lookupStore x = if x = e then none else w.lookupStore x := by
  rw [World.delete, World.lookupStore, World.lookupStore]
  show lookupEntry (w.components.filter fun p => p.1 ≠ e) x = _
  induction w.components with
  | nil => simp [lookupEntry]
  | cons p ps ih =>
    by_cases hpe : p.1 = e
    · rw [List.filter_cons, if_neg (by simp [hpe])]
      rw [ih]
      by_cases hxe : x = e
      · simp [hxe]
      · have hpx : ¬(p.1 = x) := fun h => hxe (h.symm.trans hpe)
        simp [lookupEntry, hxe, hpx]
    · rw [List.filter_cons, if_pos (by simp [hpe])]
      by_cases hpx : p.1 = x
      · have hxe : ¬(x = e) := fun h => hpe (hpx.trans h)
        simp [lookupEntry, hpx, hxe]
      · simp only [lookupEntry, hpx, if_false, ih]

theorem keys_delete (w : World) (e x : Entity) :
    x ∈ (w.delete e).keys ↔ x ∈ w.keys ∧ x ≠ e := by
  rw [World.delete, World.keys, World.keys]
  show x ∈ (w.components.filter fun p => p.1 ≠ e).map Prod.fst ↔ _
  simp only [List.mem_map, List.mem_filter, decide_eq_true_eq]
  constructor
  · rintro ⟨p, ⟨hp, hne⟩, rfl⟩
    exact ⟨⟨p, hp, rfl⟩, hne⟩
  · rintro ⟨⟨p, hp, rfl⟩, hne⟩
    exact ⟨p, ⟨hp, hne⟩, rfl⟩

theorem next_delete (w : World) (e : Entity) :
    (w.delete e).next_entity = w.next_entity := rfl

theorem lookup_update (w : World) (d : Entity) (f : ComponentStore → ComponentStore)
    (x : Entity) :
    (w.updateStore d f).lookupStore x =
      if x = d then (w.lookupStore x).map f else w.lookupStore x := by
  rw [World.updateStore, World.lookupStore, World.lookupStore]
  show lookupEntry (w.components.map fun p => if p.1 = d then (p.1, f p.2) else p) x = _
  induction w.components with
  | nil => simp [lookupEntry]
  | cons p ps ih =>
    rw [List.map_cons]
    by_cases hpx : p.1 = x
    · by_cases hxd : x = d
      · have hpd : p.1 = d := hpx.trans hxd
        simp [lookupEntry, hpd, hpx, hxd]
      · have hpd : ¬(p.1 = d) := fun h => hxd (hpx.symm.trans h)
        simp [lookupEntry, hpd, hpx, hxd]
    · by_cases hpd : p.1 = d
      · have hdx : ¬(d = x) := fun h => hpx (hpd.trans h)
        simp only [hpd, if_true]
        simp [lookupEntry, hpx, hdx, ih]
      · simp only [hpd, if_false]
        simp [lookupEntry, hpx, ih]

theorem next_update (w : World) (d : Entity) (f : ComponentStore → ComponentStore) :
    (w.updateStore d f).next_entity = w.next_entity := rfl

theorem keys_update (w : World) (d : Entity) (f : ComponentStore → ComponentStore)
    (x : Entity) : x ∈ (w.updateStore d f).keys ↔ x ∈ w.keys := by
  rw [World.updateStore, World.keys, World.keys]
  show x ∈ (w.components.map fun p => if p.1 = d then (p.1, f p.2) else p).map Prod.fst ↔ _
  rw [List.map_map]
  have : (Prod.fst ∘ fun p : Entity × ComponentStore => if p.1 = d then (p.1, f p.2) else p)
      = Prod.fst := by
    funext p
    by_cases h : p.1 = d <;> simp [h]
  rw [this]

theorem collides_iff_sq (a b : LocationComponent) (h : 0 < a.scale + b.scale) :
    a.collides b ↔
      (a.xyz.x - b.xyz.x) ^ 2 + (a.xyz.y - b.xyz.y) ^ 2 + (a.xyz.z - b.xyz.z) ^ 2
        < (a.scale + b.scale) ^ 2 / 2 := by
  rw [LocationComponent.collides]
  have hs2 : (0 : ℝ) < Real.sqrt 2 := Real.sqrt_pos.mpr (by norm_num)
  have ht : 0 < (a.scale + b.scale) * Real.sqrt 2 / 2 := by positivity
  rw [Real.sqrt_lt' ht]
  have h2 : ((a.scale + b.scale) * Real.sqrt 2 / 2) ^ 2 = (a.scale + b.scale) ^ 2 / 2 := by
    rw [div_pow, mul_pow, Real.sq_sqrt (by norm_num : (0:ℝ) ≤ 2)]
    ring
  rw [h2]

theorem lookupTy_ty (st : ComponentStore) (c : CompTy) (v : Component)
    (h : st.lookupTy c = some v) : v.ty = c := by
  cases c <;>
    simp only [ComponentStore.lookupTy, Option.map_eq_some'] at h <;>
    obtain ⟨a, _, rfl⟩ := h <;>
    rfl

theorem getFromStore_isSome (cs : List CompTy) (st : ComponentStore) :
    (getFromStore cs st).isSome ↔ ∀ c ∈ cs, (st.lookupTy c).isSome := by
  induction cs with
  | nil => simp [getFromStore]
  | cons c cs ih =>
    constructor
    · intro hs
      obtain ⟨out, hout⟩ := Option.isSome_iff_exists.1 hs
      simp only [getFromStore, Option.bind_eq_some, Option.map_eq_some'] at hout
      obtain ⟨v, hv, t, ht, _⟩ := hout
      intro d hd
      rcases List.mem_cons.1 hd with rfl | hd'
      · simp [hv]
      · exact (ih.1 (by simp [ht])) d hd'
    · intro hall
      obtain ⟨v, hv⟩ := Option.isSome_iff_exists.1 (hall c (List.mem_cons_self c cs))
      obtain ⟨t, ht⟩ := Option.isSome_iff_exists.1
        (ih.2 fun d hd => hall d (List.mem_cons_of_mem _ hd))
      simp [getFromStore, hv, ht]

theorem getFromStore_types (cs : List CompTy) (st : ComponentStore)
    (out : List Component) (h : getFromStore cs st = some out) :
    out.map Component.ty = cs := by
  induction cs generalizing out with
  | nil =>
    simp only [getFromStore, Option.some.injEq] at h
    subst h; rfl
  | cons c cs ih =>
    simp only [getFromStore, Option.bind_eq_some, Option.map_eq_some'] at h
    obtain ⟨v, hv, t, ht, rfl⟩ := h
    simp only [List.map_cons, lookupTy_ty st c v hv, ih t ht]

/-- The `xyz` center of a location, as a point of the real Euclidean space of
dimension 3 (giving the genuine Euclidean metric to compare the code's
distance formula against). -/
def toE3 (p : Point3) : EuclideanSpace ℝ (Fin 3) := ![p.x, p.y, p.z]

theorem dist_toE3 (p q : Point3) :
    dist (toE3 p) (toE3 q)
      = Real.sqrt ((p.x - q.x) ^ 2 + (p.y - q.y) ^ 2 + (p.z - q.z) ^ 2) := by
  rw [EuclideanSpace.dist_eq]
  congr 1
  rw [Fin.sum_univ_three]
  simp [toE3, Real.dist_eq, sq_abs]

/-- Claim C1: for every two location components, `collides` holds iff the
Euclidean distance between their `xyz` centers is strictly less than
`(scale1 + scale2) * sqrt 2 / 2`; at a distance exactly equal to the
threshold, `collides` is false. -/
theorem c1_collides_iff_euclidean (a b : LocationComponent) :
    (a.collides b ↔
      dist (toE3 a.xyz) (toE3 b.xyz) < (a.scale + b.scale) * Real.sqrt 2 / 2)
    ∧ (dist (toE3 a.xyz) (toE3 b.xyz) = (a.scale + b.scale) * Real.sqrt 2 / 2 →
      ¬a.collides b) := by
  have hdist := dist_toE3 a.xyz b.xyz
  constructor
  · rw [LocationComponent.collides, hdist]
  · intro heq hcol
    rw [LocationComponent.collides, ← hdist, heq] at hcol
    exact lt_irrefl _ hcol

/-- A location at the origin with unit scale. -/
noncomputable def c1LocA : LocationComponent := ⟨⟨0, 0, 0⟩, ⟨0, 0, 0⟩, 1⟩

/-- A location at distance exactly `sqrt 2` from the origin, with unit scale:
its distance to `c1LocA` sits exactly on the collision threshold
`(1 + 1) * sqrt 2 / 2 = sqrt 2`. -/
noncomputable def c1LocB : LocationComponent := ⟨⟨Real.sqrt 2, 0, 0⟩, ⟨0, 0, 0⟩, 1⟩

theorem c1_collides_iff_euclidean_witness : ¬c1LocA.collides c1LocB := by
  apply (c1_collides_iff_euclidean c1LocA c1LocB).2
  have h1 : dist (toE3 c1LocA.xyz) (toE3 c1LocB.xyz) = Real.sqrt 2 := by
    rw [dist_toE3]
    have h0 : ((0 : ℝ) - Real.sqrt 2) ^ 2 = 2 := by
      rw [zero_sub, neg_pow]
      simp [Real.sq_sqrt (by norm_num : (0:ℝ) ≤ 2)]
    show Real.sqrt (((0 : ℝ) - Real.sqrt 2) ^ 2 + ((0:ℝ) - 0) ^ 2 + ((0:ℝ) - 0) ^ 2)
      = Real.sqrt 2
    rw [h0]
    norm_num
  rw [h1]
  show Real.sqrt 2 = ((1 : ℝ) + 1) * Real.sqrt 2 / 2
  ring

/-- Claim C4: the statically-typed `World::get` is all-or-nothing — it returns
`Some` exactly when the entity currently exists and its store holds every
requested component type, and any returned list consists of exactly the
requested component types in order (never a proper subset). -/
theorem c4_get_all_or_nothing (w : World) (cs : List CompTy) (e : Entity) :
    ((w.get cs e).isSome ↔
      ∃ st, w.lookupStore e = some st ∧ ∀ c ∈ cs, (st.lookupTy c).isSome)
    ∧ (∀ out, w.get cs e = some out → out.map Component.ty = cs) := by
  constructor
  · rw [World.get, World.getWith]
    rcases h : w.lookupStore e with _ | st
    · simp
    · simp only [Option.some_bind]
      rw [getFromStore_isSome]
      constructor
      · intro hall
        exact ⟨st, rfl, hall⟩
      · rintro ⟨st', hst', hall⟩
        obtain rfl : st = st' := Option.some.inj hst'
        exact hall
  · intro out hout
    rw [World.get, World.getWith] at hout
    rcases h : w.lookupStore e with _ | st
    · rw [h] at hout
      exact absurd hout (by simp)
    · rw [h] at hout
      simp only [Option.some_bind] at hout
      exact getFromStore_types cs st out hout

/-- A concrete entity for exercising the typed query interface. -/
def c4Entity : Entity := ⟨0, "k"⟩

/-- A concrete store holding exactly a key and a collision component. -/
def c4Store : ComponentStore :=
  ⟨none, none, none, none, some ⟨'a', false⟩, some true, none, none⟩

/-- A concrete world holding `c4Entity` with `c4Store`. -/
def c4World : World := ⟨1, [(c4Entity, c4Store)]⟩

theorem c4_get_all_or_nothing_witness :
    (c4World.get [CompTy.key, CompTy.collision] c4Entity).isSome
    ∧ ([Component.key ⟨'a', false⟩, Component.collision true].map Component.ty
        = [CompTy.key, CompTy.collision])
    ∧ ¬(c4World.get [CompTy.key, CompTy.location] c4Entity).isSome := by
  refine ⟨?_, ?_, ?_⟩
  · exact (c4_get_all_or_nothing c4World [CompTy.key, CompTy.collision] c4Entity).1.mpr
      ⟨c4Store, rfl, by decide⟩
  · exact (c4_get_all_or_nothing c4World [CompTy.key, CompTy.collision] c4Entity).2
      [Component.key ⟨'a', false⟩, Component.collision true] rfl
  · intro hs
    obtain ⟨st, hst, hall⟩ :=
      (c4_get_all_or_nothing c4World [CompTy.key, CompTy.location] c4Entity).1.mp hs
    have hst' : st = c4Store := Option.some.inj (by rw [← hst]; rfl)
    subst hst'
    exact absurd (hall CompTy.location (by simp)) (by decide)

theorem absent_runOps (ops : List Op) : ∀ (w : World) (e : Entity),
    e ∉ w.keys → e.idx < w.next_entity →
    e ∉ (runOps w ops).keys ∧ e.idx < (runOps w ops).next_entity := by
  induction ops with
  | nil => exact fun w e hk hi => ⟨hk, hi⟩
  | cons op ops ih =>
    intro w e hk hi
    cases op with
    | new n st =>
      rw [runOps]
      apply ih
      · intro hmem
        rw [World.newEntity] at hmem
        rcases List.mem_cons.1 hmem with heq | hmem'
        · exact absurd (congrArg Entity.idx heq) (Nat.ne_of_lt hi)
        · exact hk hmem'
      · exact Nat.lt_succ_of_lt hi
    | del d =>
      rw [runOps]
      apply ih
      · intro hmem
        exact hk ((keys_delete w d e).1 hmem).1
      · exact hi

/-- Claim C5: after `delete_entity(e)`, the entity `e` appears in no result
set of any subsequent `iter` call, across any further sequence of
`new_entity`/`delete_entity` calls (for an `e` issued during this run, i.e.
with its counter below `next_entity`); deleting never touches the entity
counter; and deleting an entity that does not exist leaves the world —
every other entity's component store included — entirely unchanged. -/
theorem c5_delete_entity (w : World) (e : Entity) :
    (w.delete e).next_entity = w.next_entity
    ∧ (e ∉ w.keys → w.delete e = w)
    ∧ (e.idx < w.next_entity →
        ∀ (ops : List Op) (cs : List CompTy),
          e ∉ ((runOps (w.delete e) ops).iter cs).map Prod.fst) := by
  refine ⟨rfl, ?_, ?_⟩
  · intro hk
    rcases w with ⟨n, comps⟩
    rw [World.delete]
    have : (comps.filter fun p => p.1 ≠ e) = comps := by
      rw [List.filter_eq_self]
      intro p hp
      simp only [ne_eq, decide_not, Bool.not_eq_true', decide_eq_false_iff_not]
      intro hpe
      exact hk (hpe ▸ List.mem_map_of_mem Prod.fst hp)
    rw [this]
  · intro hidx ops cs hmem
    have hk : e ∉ (w.delete e).keys := by
      intro h
      exact ((keys_delete w e e).1 h).2 rfl
    have habs := absent_runOps ops (w.delete e) e hk (by rw [next_delete]; exact hidx)
    obtain ⟨p, hp, hfst⟩ := List.mem_map.1 hmem
    rcases p with ⟨e', a⟩
    cases hfst
    exact habs.1 (fst_mem_iterWith hp)

/-- A two-entity world for exercising deletion. -/
def c5World : World :=
  ⟨2, [(⟨0, "a"⟩, c4Store), (⟨1, "b"⟩, ComponentStore.empty)]⟩

theorem c5_delete_entity_witness :
    c5World.delete ⟨5, "z"⟩ = c5World
    ∧ (⟨1, "b"⟩ : Entity) ∉
        (((runOps (c5World.delete ⟨1, "b"⟩) [Op.new "c" ComponentStore.empty]).iter
          [CompTy.key]).map Prod.fst)
    ∧ (c5World.delete ⟨1, "b"⟩).next_entity = c5World.next_entity := by
  refine ⟨?_, ?_, ?_⟩
  · exact (c5_delete_entity c5World ⟨5, "z"⟩).2.1 (by decide)
  · exact (c5_delete_entity c5World ⟨1, "b"⟩).2.2 (by decide) _ _
  · exact (c5_delete_entity c5World ⟨1, "b"⟩).1

theorem issued_idx_ge (ops : List Op) : ∀ (w : World) (e : Entity),
    e ∈ issuedEntities w ops → w.next_entity ≤ e.idx := by
  induction ops with
  | nil =>
    intro w e h
    rw [issuedEntities] at h
    cases h
  | cons op ops ih =>
    intro w e h
    cases op with
    | new n st =>
      rw [issuedEntities] at h
      rcases List.mem_cons.1 h with rfl | h'
      · exact Nat.le.refl
      · exact Nat.le_of_succ_le (ih _ _ h')
    | del d =>
      rw [issuedEntities] at h
      exact (next_delete w d) ▸ ih _ _ h

theorem issued_pairwise (ops : List Op) : ∀ w : World,
    (issuedEntities w ops).Pairwise fun a b => a.idx < b.idx := by
  induction ops with
  | nil =>
    intro w
    rw [issuedEntities]
    exact List.Pairwise.nil
  | cons op ops ih =>
    intro w
    cases op with
    | new n st =>
      rw [issuedEntities]
      refine List.Pairwise.cons ?_ (ih _)
      intro e he
      exact Nat.lt_of_succ_le (issued_idx_ge ops _ e he)
    | del d =>
      rw [issuedEntities]
      exact ih _

/-- Claim C6: entity identifiers are never reused within a run — over any
sequence of `new_entity`/`delete_entity` calls against a world, the entities
returned by the `new_entity` calls are pairwise distinct. -/
theorem c6_no_entity_reuse (w : World) (ops : List Op) :
    (issuedEntities w ops).Nodup := by
  refine List.Pairwise.imp ?_ (issued_pairwise ops w)
  intro a b hlt heq
  exact absurd (heq ▸ hlt) (lt_irrefl _)

theorem lookup_foldl_delete (l : List Entity) : ∀ (w : World) (e : Entity),
    (l.foldl World.delete w).lookupStore e = if e ∈ l then none else w.lookupStore e := by
  induction l with
  | nil =>
    intro w e
    simp
  | cons d l ih =>
    intro w e
    rw [List.foldl_cons, ih]
    by_cases hel : e ∈ l
    · simp [hel]
    · rw [lookup_delete]
      by_cases hed : e = d
      · simp [hed, hel]
      · simp [hed, hel]

theorem mem_lavaVictims (w : World) (e : Entity) :
    e ∈ lavaVictims w ↔
      ∃ st loc, w.lookupStore e = some st ∧ st.location = some loc ∧ loc.xyz.y < -1 := by
  rw [lavaVictims, List.mem_filterMap]
  constructor
  · rintro ⟨⟨e', loc⟩, hp, hg⟩
    by_cases hy : loc.xyz.y < -1
    · rw [if_pos hy] at hg
      obtain rfl : e = e' := (Option.some.inj hg).symm
      obtain ⟨hk, hget⟩ := (mem_iterWith w _ e loc).1 hp
      rw [World.getWith] at hget
      rcases hst : w.lookupStore e with _ | st
      · rw [hst] at hget
        exact absurd hget (by simp)
      · rw [hst] at hget
        simp only [Option.some_bind] at hget
        exact ⟨st, loc, rfl, hget, hy⟩
    · rw [if_neg hy] at hg
      exact absurd hg (by simp)
  · rintro ⟨st, loc, hst, hloc, hy⟩
    refine ⟨(e, loc), ?_, ?_⟩
    · apply (mem_iterWith w _ e loc).2
      refine ⟨?_, ?_⟩
      · rw [mem_keys_iff_lookup, hst]
        rfl
      · rw [World.getWith, hst]
        simp [ComponentStore.locOnly, hloc]
    · rw [if_pos hy]

/-- Claim C8: one `TheFloorIsLavaSystem` step deletes exactly those entities
whose location has vertical position strictly below `-1.0`; entities at or
above it, and entities without a location component, keep their component
store untouched. -/
theorem c8_floor_is_lava (w : World) (dt : Nat) (e : Entity) (st : ComponentStore)
    (hst : w.lookupStore e = some st) :
    TheFloorIsLavaSystem.step (.playing w) dt = .playing (lavaWorld w)
    ∧ (∀ loc, st.location = some loc → loc.xyz.y < -1 →
        (lavaWorld w).lookupStore e = none)
    ∧ (∀ loc, st.location = some loc → ¬(loc.xyz.y < -1) →
        (lavaWorld w).lookupStore e = some st)
    ∧ (st.location = none → (lavaWorld w).lookupStore e = some st) := by
  refine ⟨rfl, ?_, ?_, ?_⟩
  · intro loc hloc hy
    rw [lavaWorld, lookup_foldl_delete,
      if_pos ((mem_lavaVictims w e).2 ⟨st, loc, hst, hloc, hy⟩)]
  · intro loc hloc hy
    rw [lavaWorld, lookup_foldl_delete, if_neg, hst]
    intro hmem
    obtain ⟨st', loc', hst', hloc', hy'⟩ := (mem_lavaVictims w e).1 hmem
    obtain rfl : st = st' := Option.some.inj (hst ▸ hst')
    obtain rfl : loc = loc' := Option.some.inj (hloc ▸ hloc')
    exact hy hy'
  · intro hnone
    rw [lavaWorld, lookup_foldl_delete, if_neg, hst]
    intro hmem
    obtain ⟨st', loc', hst', hloc', hy'⟩ := (mem_lavaVictims w e).1 hmem
    obtain rfl : st = st' := Option.some.inj (hst ▸ hst')
    rw [hnone] at hloc'
    exact Option.noConfusion hloc'

/-- A location at height `-1.5`. -/
noncomputable def c8LocLow : LocationComponent := ⟨⟨0, -1.5, 0⟩, ⟨0, 0, 0⟩, 1⟩

/-- A location at height `0`. -/
noncomputable def c8LocOk : LocationComponent := ⟨⟨0, 0, 0⟩, ⟨0, 0, 0⟩, 1⟩

/-- A store holding only `c8LocLow`. -/
noncomputable def c8StLow : ComponentStore :=
  ⟨some c8LocLow, none, none, none, none, none, none, none⟩

/-- A store holding only `c8LocOk`. -/
noncomputable def c8StOk : ComponentStore :=
  ⟨some c8LocOk, none, none, none, none, none, none, none⟩

/-- A world with one entity at height `-1.5` and one at height `0`. -/
noncomputable def c8World : World :=
  ⟨2, [(⟨0, "low"⟩, c8StLow), (⟨1, "ok"⟩, c8StOk)]⟩

theorem c8_floor_is_lava_witness :
    (lavaWorld c8World).lookupStore ⟨0, "low"⟩ = none
    ∧ (lavaWorld c8World).lookupStore ⟨1, "ok"⟩ = some c8StOk := by
  constructor
  · refine (c8_floor_is_lava c8World 16 ⟨0, "low"⟩ c8StLow rfl).2.1 c8LocLow rfl ?_
    show (-1.5 : ℝ) < -1
    norm_num
  · refine (c8_floor_is_lava c8World 16 ⟨1, "ok"⟩ c8StOk rfl).2.2.1 c8LocOk rfl ?_
    show ¬((0 : ℝ) < -1)
    norm_num

theorem head?_mem {α : Type} {l : List α} {a : α} (h : l.head? = some a) : a ∈ l := by
  cases l with
  | nil => exact Option.noConfusion h
  | cons x t =>
    rw [List.head?_cons] at h
    exact (Option.some.inj h) ▸ List.mem_cons_self x t

/-- Claim C3: in `Playing`, when the camera collides with a goal entity,
`WinSystem::step` deletes the goal, enables the win decal and moves to
`Done(world, 0)` with that same (mutated) world; in `Done(world, t)` a step
adds `dt` to `t`; and `should_close` is true on `Done(_, t)` exactly when
`t` exceeds 3500, always on `Close`, never on `Playing`. -/
theorem c3_win_system (w : World) (dt : Nat) (c : Entity) (cam : LocationComponent)
    (g d : Entity) (dc : DecalComponent)
    (hcam : (w.iterWith ComponentStore.camLoc).head? = some (c, cam))
    (hgoal : winGoal w cam = some g)
    (hdecal : ((w.delete g).iterWith ComponentStore.decalOnly).head? = some (d, dc)) :
    WinSystem.step (.playing w) dt
      = .done ((w.delete g).updateStore d ComponentStore.withDecalEnabled) 0
    ∧ ((w.delete g).updateStore d ComponentStore.withDecalEnabled).lookupStore g = none
    ∧ (∃ st, ((w.delete g).updateStore d ComponentStore.withDecalEnabled).lookupStore d
        = some st ∧ st.decal = some ⟨true⟩)
    ∧ (∀ (w' : World) (t : Nat), WinSystem.step (.done w' t) dt = .done w' (t + dt))
    ∧ (∀ (w' : World) (t : Nat), (State.done w' t).should_close = true ↔ t > 3500)
    ∧ State.close.should_close = true
    ∧ (∀ w' : World, (State.playing w').should_close = false) := by
  have hg0 : (w.delete g).lookupStore g = none := by
    rw [lookup_delete]
    simp
  refine ⟨?_, ?_, ?_, fun w' t => rfl, ?_, rfl, fun w' => rfl⟩
  · simp only [WinSystem.step, hcam, hgoal, hdecal]
  · rw [lookup_update]
    by_cases hgd : g = d
    · rw [if_pos hgd, hg0]
      rfl
    · rw [if_neg hgd]
      exact hg0
  · have hmem := head?_mem hdecal
    obtain ⟨hk, hget⟩ := (mem_iterWith _ _ d dc).1 hmem
    rw [World.getWith] at hget
    rcases hst : (w.delete g).lookupStore d with _ | st0
    · rw [hst] at hget
      exact absurd hget (by simp)
    · rw [hst] at hget
      simp only [Option.some_bind] at hget
      refine ⟨st0.withDecalEnabled, ?_, ?_⟩
      · rw [lookup_update, if_pos rfl, hst]
        rfl
      · simp only [ComponentStore.withDecalEnabled]
        rw [show st0.decal = some dc from hget]
        rfl
  · intro w' t
    simp [State.should_close]

/-- The camera location used in the win-system witness: origin, scale `0.2`.
-/
noncomputable def c3CamLoc : LocationComponent := ⟨⟨0, 0, 0⟩, ⟨0, 0, 0⟩, 0.2⟩

/-- The goal location used in the win-system witness: `(0.5, 0, 0)`, scale
`1`; its distance `0.5` to the camera is below the threshold
`1.2 * sqrt 2 / 2`. -/
noncomputable def c3GoalLoc : LocationComponent := ⟨⟨0.5, 0, 0⟩, ⟨0, 0, 0⟩, 1⟩

/-- The camera entity's store. -/
noncomputable def c3CamSt : ComponentStore :=
  ⟨some c3CamLoc, some (), none, none, none, none, none, none⟩

/-- The goal entity's store. -/
noncomputable def c3GoalSt : ComponentStore :=
  ⟨some c3GoalLoc, none, none, some (), none, none, none, none⟩

/-- The win decal entity's store (decal disabled). -/
def c3DecalSt : ComponentStore :=
  ⟨none, none, none, none, none, none, none, some ⟨false⟩⟩

/-- A world with a camera, a goal colliding with it, and a win decal. -/
noncomputable def c3World : World :=
  ⟨3, [(⟨0, "player"⟩, c3CamSt), (⟨1, "goal"⟩, c3GoalSt), (⟨2, "win"⟩, c3DecalSt)]⟩

theorem c3CamLoc_collides_goal : c3CamLoc.collides c3GoalLoc := by
  rw [collides_iff_sq]
  · show ((0 : ℝ) - 0.5) ^ 2 + ((0 : ℝ) - 0) ^ 2 + ((0 : ℝ) - 0) ^ 2
      < ((0.2 : ℝ) + 1) ^ 2 / 2
    norm_num
  · show (0 : ℝ) < 0.2 + 1
    norm_num

theorem c3_winGoal_eval : winGoal c3World c3CamLoc = some ⟨1, "goal"⟩ := by
  rw [winGoal]
  have hiter : c3World.iterWith ComponentStore.goalLoc = [(⟨1, "goal"⟩, c3GoalLoc)] := rfl
  rw [hiter, List.filterMap_cons, if_pos c3CamLoc_collides_goal]
  rfl

theorem c3_win_system_witness :
    WinSystem.step (.playing c3World) 7
      = .done ((c3World.delete ⟨1, "goal"⟩).updateStore ⟨2, "win"⟩
          ComponentStore.withDecalEnabled) 0
    ∧ (State.done c3World 3501).should_close = true := by
  have hthm := c3_win_system c3World 7 ⟨0, "player"⟩ c3CamLoc ⟨1, "goal"⟩ ⟨2, "win"⟩
    ⟨false⟩ rfl c3_winGoal_eval rfl
  exact ⟨hthm.1, (hthm.2.2.2.2.1 c3World 3501).2 (by norm_num)⟩

/-- A world with a camera and a goal colliding with it, but no win decal
entity anywhere. -/
noncomputable def c7World : World :=
  ⟨2, [(⟨0, "player"⟩, c3CamSt), (⟨1, "goal"⟩, c3GoalSt)]⟩

/-- A world with a goal but no camera entity. -/
noncomputable def c7NoCamWorld : World := ⟨1, [(⟨0, "goal"⟩, c3GoalSt)]⟩

theorem c7_winGoal_eval : winGoal c7World c3CamLoc = some ⟨1, "goal"⟩ := by
  rw [winGoal]
  have hiter : c7World.iterWith ComponentStore.goalLoc = [(⟨1, "goal"⟩, c3GoalLoc)] := rfl
  rw [hiter, List.filterMap_cons, if_pos c3CamLoc_collides_goal]
  rfl

theorem c7_missing_components_counterexample :
    WinSystem.step (.playing c7World) 16 ≠ .playing c7World := by
  have hcam : (c7World.iterWith ComponentStore.camLoc).head?
      = some (⟨0, "player"⟩, c3CamLoc) := rfl
  have hdecal : ((c7World.delete ⟨1, "goal"⟩).iterWith ComponentStore.decalOnly).head?
      = none := rfl
  have hstep : WinSystem.step (.playing c7World) 16
      = .playing (c7World.delete ⟨1, "goal"⟩) := by
    simp only [WinSystem.step, hcam, c7_winGoal_eval, hdecal]
  rw [hstep]
  intro h
  injection h with hw
  have hlen := congrArg (fun w : World => w.components.length) hw
  have h1 : (c7World.delete ⟨1, "goal"⟩).components.length = 1 := rfl
  have h2 : c7World.components.length = 2 := rfl
  rw [show ((fun w : World => w.components.length) (c7World.delete ⟨1, "goal"⟩)
      = (fun w : World => w.components.length) c7World)
      = ((c7World.delete ⟨1, "goal"⟩).components.length = c7World.components.length)
    from rfl, h1, h2] at hlen
  exact Nat.noConfusion (Nat.succ.inj hlen)

/-- Claim C7 (amended): systems skip their work and leave the state unchanged
when the camera is missing (HoldSystem, SnagSystem, WinSystem) or when no
goal collides with the camera (WinSystem); but when the camera collides with
a goal and no `DecalComponent` entity exists, `WinSystem::step` has already
deleted the goal before it notices the missing decal — the state stays
`Playing`, with the goal entity removed rather than the world unchanged. -/
theorem c7_missing_components_amended (w : World) (dt : Nat) :
    ((w.iterWith ComponentStore.camLoc).head? = none →
        HoldSystem.step (.playing w) dt = .playing w
        ∧ SnagSystem.step (.playing w) dt = .playing w
        ∧ WinSystem.step (.playing w) dt = .playing w)
    ∧ (∀ c cam, (w.iterWith ComponentStore.camLoc).head? = some (c, cam) →
        winGoal w cam = none →
        WinSystem.step (.playing w) dt = .playing w)
    ∧ (∀ c cam g, (w.iterWith ComponentStore.camLoc).head? = some (c, cam) →
        winGoal w cam = some g →
        ((w.delete g).iterWith ComponentStore.decalOnly).head? = none →
        WinSystem.step (.playing w) dt = .playing (w.delete g)) := by
  refine ⟨?_, ?_, ?_⟩
  · intro hcam
    refine ⟨?_, ?_, ?_⟩
    · simp only [HoldSystem.step, State.onWorld, holdWorld, hcam]
    · simp only [SnagSystem.step, State.onWorld, snagWorld, hcam]
    · simp only [WinSystem.step, hcam]
  · intro c cam hcam hg
    simp only [WinSystem.step, hcam, hg]
  · intro c cam g hcam hg hd
    simp only [WinSystem.step, hcam, hg, hd]

theorem c7_missing_components_amended_witness :
    HoldSystem.step (.playing c7NoCamWorld) 16 = .playing c7NoCamWorld
    ∧ WinSystem.step (.playing c7World) 16 = .playing (c7World.delete ⟨1, "goal"⟩) := by
  refine ⟨((c7_missing_components_amended c7NoCamWorld 16).1 rfl).1, ?_⟩
  exact (c7_missing_components_amended c7World 16).2.2 ⟨0, "player"⟩ c3CamLoc ⟨1, "goal"⟩
    rfl c7_winGoal_eval rfl

theorem mem_unlockPairs (w : World) (a b : Entity) :
    (a, b) ∈ unlockPairs w ↔
      ∃ D dloc kc kloc,
        a ∈ w.keys ∧ w.getWith ComponentStore.doorLoc a = some (D, dloc)
        ∧ b ∈ w.keys ∧ w.getWith ComponentStore.keyLoc b = some (kc, kloc)
        ∧ dloc.collides kloc ∧ wrapDiff kc.letter D = 32 := by
  rw [unlockPairs, List.mem_flatMap]
  constructor
  · rintro ⟨⟨d, D, dloc⟩, hd, hmem⟩
    rw [List.mem_filterMap] at hmem
    obtain ⟨⟨k, kc, kloc⟩, hkk, hg⟩ := hmem
    by_cases hcond : dloc.collides kloc ∧ wrapDiff kc.letter D = 32
    · rw [if_pos hcond] at hg
      have hpair := Option.some.inj hg
      rw [Prod.mk.injEq] at hpair
      obtain ⟨h1, h2⟩ := hpair
      subst h1
      subst h2
      exact ⟨D, dloc, kc, kloc, fst_mem_iterWith hd,
        ((mem_iterWith w _ _ _).1 hd).2, fst_mem_iterWith hkk,
        ((mem_iterWith w _ _ _).1 hkk).2, hcond.1, hcond.2⟩
    · rw [if_neg hcond] at hg
      exact absurd hg (by simp)
  · rintro ⟨D, dloc, kc, kloc, hak, hag, hbk, hbg, hcol, hdiff⟩
    refine ⟨(a, D, dloc), (mem_iterWith w _ a (D, dloc)).2 ⟨hak, hag⟩, ?_⟩
    rw [List.mem_filterMap]
    refine ⟨(b, kc, kloc), (mem_iterWith w _ b (kc, kloc)).2 ⟨hbk, hbg⟩, ?_⟩
    rw [if_pos ⟨hcol, hdiff⟩]

theorem unlockPairs_snd_hasKey (w : World) (x : Entity)
    (hx : x ∈ (unlockPairs w).map Prod.snd) :
    ∃ st kc, w.lookupStore x = some st ∧ st.key = some kc := by
  obtain ⟨⟨a, b⟩, hab, hfst⟩ := List.mem_map.1 hx
  cases hfst
  obtain ⟨D, dloc, kc, kloc, hak, hag, hbk, hbg, hcol, hdiff⟩ :=
    (mem_unlockPairs w a b).1 hab
  rw [World.getWith] at hbg
  rcases hst : w.lookupStore b with _ | st
  · rw [hst] at hbg
    exact absurd hbg (by simp)
  · rw [hst] at hbg
    simp only [Option.some_bind, ComponentStore.keyLoc, Option.bind_eq_some,
      Option.map_eq_some'] at hbg
    obtain ⟨kc0, hkc0, loc0, hloc0, heq⟩ := hbg
    exact ⟨st, kc0, rfl, hkc0⟩

theorem applyUnlocks_absent (ps : List (Entity × Entity)) : ∀ (w : World) (x : Entity),
    w.lookupStore x = none → (applyUnlocks w ps).lookupStore x = none := by
  induction ps with
  | nil => exact fun w x h => h
  | cons p ps ih =>
    intro w x h
    rw [applyUnlocks, List.foldl_cons]
    show (applyUnlocks ((w.delete p.2).updateStore p.1
        ComponentStore.withCollisionInactive) ps).lookupStore x = none
    apply ih
    have hld : (w.delete p.2).lookupStore x = none := by
      rw [lookup_delete]
      by_cases hxk : x = p.2
      · rw [if_pos hxk]
      · rw [if_neg hxk]
        exact h
    rw [lookup_update, hld]
    simp

theorem applyUnlocks_deleted (ps : List (Entity × Entity)) : ∀ (w : World) (x : Entity),
    x ∈ ps.map Prod.snd → (applyUnlocks w ps).lookupStore x = none := by
  induction ps with
  | nil =>
    intro w x h
    exact absurd h (by simp)
  | cons p ps ih =>
    intro w x h
    rw [applyUnlocks, List.foldl_cons]
    show (applyUnlocks ((w.delete p.2).updateStore p.1
        ComponentStore.withCollisionInactive) ps).lookupStore x = none
    rw [List.map_cons] at h
    rcases List.mem_cons.1 h with heq | hmem
    · apply applyUnlocks_absent
      have hld : (w.delete p.2).lookupStore x = none := by
        rw [lookup_delete, if_pos heq]
      rw [lookup_update, hld]
      simp
    · exact ih _ x hmem

theorem applyUnlocks_untouched (ps : List (Entity × Entity)) : ∀ (w : World) (x : Entity),
    x ∉ ps.map Prod.fst → x ∉ ps.map Prod.snd →
    (applyUnlocks w ps).lookupStore x = w.lookupStore x := by
  induction ps with
  | nil => exact fun w x _ _ => rfl
  | cons p ps ih =>
    intro w x hf hs
    have hxd : x ≠ p.1 := fun h => hf (by simp [h])
    have hxk : x ≠ p.2 := fun h => hs (by simp [h])
    have hf' : x ∉ ps.map Prod.fst := fun h => hf (by simp [h])
    have hs' : x ∉ ps.map Prod.snd := fun h => hs (by simp [h])
    rw [applyUnlocks, List.foldl_cons]
    show (applyUnlocks ((w.delete p.2).updateStore p.1
        ComponentStore.withCollisionInactive) ps).lookupStore x = _
    rw [ih _ x hf' hs', lookup_update, if_neg hxd, lookup_delete, if_neg hxk]

theorem applyUnlocks_keepFalse (ps : List (Entity × Entity)) : ∀ (w : World) (x : Entity),
    x ∉ ps.map Prod.snd →
    ∀ st, w.lookupStore x = some st → st.collision = some false →
    ∃ st', (applyUnlocks w ps).lookupStore x = some st'
      ∧ st'.collision = some false := by
  induction ps with
  | nil => exact fun w x _ st hst hc => ⟨st, hst, hc⟩
  | cons p ps ih =>
    intro w x hs st hst hc
    have hxk : x ≠ p.2 := fun h => hs (by simp [h])
    have hs' : x ∉ ps.map Prod.snd := fun h => hs (by simp [h])
    rw [applyUnlocks, List.foldl_cons]
    show ∃ st', (applyUnlocks ((w.delete p.2).updateStore p.1
        ComponentStore.withCollisionInactive) ps).lookupStore x = some st' ∧ _
    by_cases hxd : x = p.1
    · refine ih _ x hs' st.withCollisionInactive ?_ ?_
      · rw [lookup_update, if_pos hxd, lookup_delete, if_neg hxk, hst]
        rfl
      · show st.collision.map (fun _ => false) = some false
        rw [hc]
        rfl
    · refine ih _ x hs' st ?_ hc
      rw [lookup_update, if_neg hxd, lookup_delete, if_neg hxk]
      exact hst

theorem applyUnlocks_hit (ps : List (Entity × Entity)) : ∀ (w : World) (x : Entity),
    x ∉ ps.map Prod.snd → (∃ k, (x, k) ∈ ps) →
    ∀ st, w.lookupStore x = some st → st.collision.isSome →
    ∃ st', (applyUnlocks w ps).lookupStore x = some st'
      ∧ st'.collision = some false := by
  induction ps with
  | nil =>
    rintro w x _ ⟨k, hk⟩
    exact absurd hk (by simp)
  | cons p ps ih =>
    rintro w x hs ⟨k, hk⟩ st hst hcs
    have hxk : x ≠ p.2 := fun h => hs (by simp [h])
    have hs' : x ∉ ps.map Prod.snd := fun h => hs (by simp [h])
    obtain ⟨b, hb⟩ := Option.isSome_iff_exists.1 hcs
    rw [applyUnlocks, List.foldl_cons]
    show ∃ st', (applyUnlocks ((w.delete p.2).updateStore p.1
        ComponentStore.withCollisionInactive) ps).lookupStore x = some st' ∧ _
    by_cases hxd : x = p.1
    · refine applyUnlocks_keepFalse ps _ x hs' st.withCollisionInactive ?_ ?_
      · rw [lookup_update, if_pos hxd, lookup_delete, if_neg hxk, hst]
        rfl
      · show st.collision.map (fun _ => false) = some false
        rw [hb]
        rfl
    · have hmem : (x, k) ∈ ps := by
        rcases List.mem_cons.1 hk with heq | hm
        · exact absurd (congrArg Prod.fst heq) hxd
        · exact hm
      refine ih _ x hs' ⟨k, hmem⟩ st ?_ hcs
      rw [lookup_update, if_neg hxd, lookup_delete, if_neg hxk]
      exact hst

/-- Claim C2: for a door entity (letter `D`) and key entity (letter `k`)
whose location spheres collide, one `UnlockSystem::step` unlocks the pair iff
`(k as u32).wrapping_sub(D as u32) == 32`; on unlock the key entity is
deleted and the door's collision flag is set inactive, and entities in no
matched pair keep their stores untouched. -/
theorem c2_unlock_system (w : World) (dt : Nat) (door key : Entity)
    (dst kst : ComponentStore) (D : Char) (dloc : LocationComponent)
    (kc : KeyComponent) (kloc : LocationComponent) (cf : Bool)
    (hdoor : w.lookupStore door = some dst)
    (hD : dst.door = some D) (hdloc : dst.location = some dloc)
    (hdnokey : dst.key = none) (hdcol : dst.collision = some cf)
    (hkey : w.lookupStore key = some kst)
    (hkc : kst.key = some kc) (hkloc : kst.location = some kloc)
    (hcol : dloc.collides kloc) :
    UnlockSystem.step (.playing w) dt = .playing (applyUnlocks w (unlockPairs w))
    ∧ ((door, key) ∈ unlockPairs w ↔ wrapDiff kc.letter D = 32)
    ∧ (wrapDiff kc.letter D = 32 →
        (applyUnlocks w (unlockPairs w)).lookupStore key = none
        ∧ ∃ st', (applyUnlocks w (unlockPairs w)).lookupStore door = some st'
            ∧ st'.collision = some false)
    ∧ (∀ x, x ∉ (unlockPairs w).map Prod.fst → x ∉ (unlockPairs w).map Prod.snd →
        (applyUnlocks w (unlockPairs w)).lookupStore x = w.lookupStore x) := by
  have hgd : w.getWith ComponentStore.doorLoc door = some (D, dloc) := by
    rw [World.getWith, hdoor]
    simp [ComponentStore.doorLoc, hD, hdloc]
  have hgk : w.getWith ComponentStore.keyLoc key = some (kc, kloc) := by
    rw [World.getWith, hkey]
    simp [ComponentStore.keyLoc, hkc, hkloc]
  have hdk : door ∈ w.keys := by
    rw [mem_keys_iff_lookup, hdoor]
    rfl
  have hkk : key ∈ w.keys := by
    rw [mem_keys_iff_lookup, hkey]
    rfl
  have hdoor_not_snd : door ∉ (unlockPairs w).map Prod.snd := by
    intro hmem
    obtain ⟨st0, kc0, hst0, hkc0⟩ := unlockPairs_snd_hasKey w door hmem
    obtain rfl : dst = st0 := Option.some.inj (hdoor ▸ hst0)
    rw [hdnokey] at hkc0
    exact Option.noConfusion hkc0
  have hiff : (door, key) ∈ unlockPairs w ↔ wrapDiff kc.letter D = 32 := by
    rw [mem_unlockPairs]
    constructor
    · rintro ⟨D', dloc', kc', kloc', _, hag, _, hbg, hcol', hdiff'⟩
      have h1 := Option.some.inj (hag.symm.trans hgd)
      rw [Prod.mk.injEq] at h1
      have h2 := Option.some.inj (hbg.symm.trans hgk)
      rw [Prod.mk.injEq] at h2
      rw [← h1.1, ← h2.1]
      exact hdiff'
    · intro hdiff
      exact ⟨D, dloc, kc, kloc, hdk, hgd, hkk, hgk, hcol, hdiff⟩
  refine ⟨rfl, hiff, ?_, applyUnlocks_untouched (unlockPairs w) w⟩
  intro hdiff
  have hmem := hiff.mpr hdiff
  refine ⟨?_, ?_⟩
  · exact applyUnlocks_deleted (unlockPairs w) w key (List.mem_map_of_mem Prod.snd hmem)
  · refine applyUnlocks_hit (unlockPairs w) w door hdoor_not_snd ⟨key, hmem⟩ dst hdoor ?_
    rw [hdcol]
    rfl

/-- The door location in the unlock witness: origin, scale `1`. -/
noncomputable def c2DoorLoc : LocationComponent := ⟨⟨0, 0, 0⟩, ⟨0, 0, 0⟩, 1⟩

/-- The key location in the unlock witness: `(0.5, 0, 0)`, scale `0.1`; the
distance `0.5` is below the threshold `1.1 * sqrt 2 / 2`. -/
noncomputable def c2KeyLoc : LocationComponent := ⟨⟨0.5, 0, 0⟩, ⟨0, 0, 0⟩, 0.1⟩

/-- The door entity's store: door letter `A`, active collision flag. -/
noncomputable def c2DoorSt : ComponentStore :=
  ⟨some c2DoorLoc, none, some 'A', none, none, some true, none, none⟩

/-- The key entity's store: key letter `a`, not held. -/
noncomputable def c2KeySt : ComponentStore :=
  ⟨some c2KeyLoc, none, none, none, some ⟨'a', false⟩, none, none, none⟩

/-- A world with door `A` and key `a` colliding. -/
noncomputable def c2World : World :=
  ⟨2, [(⟨0, "door"⟩, c2DoorSt), (⟨1, "key"⟩, c2KeySt)]⟩

theorem c2DoorLoc_collides_key : c2DoorLoc.collides c2KeyLoc := by
  rw [collides_iff_sq]
  · show ((0 : ℝ) - 0.5) ^ 2 + ((0 : ℝ) - 0) ^ 2 + ((0 : ℝ) - 0) ^ 2
      < ((1 : ℝ) + 0.1) ^ 2 / 2
    norm_num
  · show (0 : ℝ) < 1 + 0.1
    norm_num

theorem c2_unlock_system_witness :
    ((⟨0, "door"⟩, ⟨1, "key"⟩) : Entity × Entity) ∈ unlockPairs c2World
    ∧ (applyUnlocks c2World (unlockPairs c2World)).lookupStore ⟨1, "key"⟩ = none
    ∧ ∃ st', (applyUnlocks c2World (unlockPairs c2World)).lookupStore ⟨0, "door"⟩
        = some st' ∧ st'.collision = some false := by
  have h := c2_unlock_system c2World 16 ⟨0, "door"⟩ ⟨1, "key"⟩ c2DoorSt c2KeySt 'A'
    c2DoorLoc ⟨'a', false⟩ c2KeyLoc true rfl rfl rfl rfl rfl rfl rfl rfl
    c2DoorLoc_collides_key
  have hdiff : wrapDiff (KeyComponent.mk 'a' false).letter 'A' = 32 := by decide
  exact ⟨h.2.1.mpr hdiff, (h.2.2.1 hdiff).1, (h.2.2.1 hdiff).2⟩

/-- Claim C9 (the code panics, contrary to the spec's propagation policy):
`Map::from_str` unwraps the header index lookups, so the empty input (no
space) and an input with no newline after the first space crash instead of
returning an explicit error value. -/
theorem c9_from_str_panics :
    fromStr [] = ParseOutcome.panic
    ∧ fromStr ('3' :: ' ' :: '3' :: []) = ParseOutcome.panic := by
  exact ⟨rfl, rfl⟩

/-- The characters `parse_tile` accepts (every arm of its match except the
trailing `bail!`). -/
def validTileChar (ch : Char) : Bool :=
  ch = '0' || ch = 'G' || ch = 'S' || ('A' ≤ ch && ch ≤ 'E') || ('a' ≤ ch && ch ≤ 'e')
    || ch = 'W' || ch = '\n' || ch = '\r' || ch = '\t' || ch = ' '

/-- Claim C10 (counterexample): the error produced for an invalid tile
character is the same value at two different positions — the position is not
part of the error, which carries only the offending character. -/
theorem c10_tile_error_counterexample :
    parseTile (MapData.init 3 3) 'q' 0 0 = Except.error (MapError.invalidTile 'q')
    ∧ parseTile (MapData.init 3 3) 'q' 3 2 = parseTile (MapData.init 3 3) 'q' 0 0 := by
  exact ⟨rfl, rfl⟩

/-- Claim C10 (amended): a legacy map body character outside the accepted
tile alphabet makes parsing fail with a descriptive error carrying the
offending character (`bail!("Invalid tile {:?}", ch)`); the position is not
included in the error. -/
theorem c10_invalid_tile_error (m : MapData) (ch : Char) (x y : Nat)
    (h : validTileChar ch = false) :
    parseTile m ch x y = Except.error (MapError.invalidTile ch) := by
  have h1 : ¬(ch = '0') := fun hc => by
    rw [validTileChar] at h
    simp [hc] at h
  have h2 : ¬(ch = 'G') := fun hc => by
    rw [validTileChar] at h
    simp [hc] at h
  have h3 : ¬(ch = 'S') := fun hc => by
    rw [validTileChar] at h
    simp [hc] at h
  have h4 : ¬('A' ≤ ch ∧ ch ≤ 'E') := fun hc => by
    rw [validTileChar] at h
    simp [hc.1, hc.2] at h
  have h5 : ¬('a' ≤ ch ∧ ch ≤ 'e') := fun hc => by
    rw [validTileChar] at h
    simp [hc.1, hc.2] at h
  have h6 : ¬(ch = 'W') := fun hc => by
    rw [validTileChar] at h
    simp [hc] at h
  have h7 : ¬(ch = '\n' ∨ ch = '\r' ∨ ch = '\t' ∨ ch = ' ') := fun hc => by
    rw [validTileChar] at h
    rcases hc with hc | hc | hc | hc <;> simp [hc] at h
  rw [parseTile, if_neg h1, if_neg h2, if_neg h3, if_neg h4, if_neg h5, if_neg h6,
    if_neg h7]

theorem c10_invalid_tile_error_witness :
    parseTile (MapData.init 3 3) 'q' 1 2 = Except.error (MapError.invalidTile 'q') :=
  c10_invalid_tile_error (MapData.init 3 3) 'q' 1 2 (by decide)
